import Mathlib

/-!
Shallow embedding of the Hindsight incremental semantic-index pipeline
(`app/rebuild_index.py`) and hybrid query engine (`app/hindsight_search.py`).

Vectors are abstracted by a type parameter `V` (the embedding provider is an
external capability; its output values are opaque to the core).  Python
exceptions are modelled with `Option`/`Except`: a function argument returning
`none` models the corresponding call raising, and a caught exception follows
the source's `try`/`except` structure.  Wall-clock time budgets
(`FAISS_MAX_SECONDS`, `RECOLL_MAX_SECONDS`) are not modelled; all embedded
runs correspond to executions in which no time budget fires.
-/

namespace Hindsight

/-- The in-memory FAISS `IndexIDMap`: the ordered list of (id, vector) pairs
stored via `add_with_ids`; `ntotal` is its length. -/
abbrev FaissIndex (V : Type) := List (Nat × V)

/-- The two on-disk artifacts written by `flush_batch`:
`hindsight_faiss.index` and `hindsight_id_map.json`.  `none` models a file
never yet written. -/
structure Disk (V : Type) where
  indexFile : Option (FaissIndex V)
  mapFile : Option (List String)
deriving Repr, DecidableEq

/-- The mutable state of one `incremental_rebuild_faiss` run: the in-memory
`faiss_index` and `id_to_filepath_map`, the disk artifacts, and the local
`added_files_count` counter. -/
structure CycleState (V : Type) where
  faissIndex : FaissIndex V
  idMap : List String
  disk : Disk V
  addedFilesCount : Nat
deriving Repr, DecidableEq

/-- `BATCH_SIZE` from rebuild_index.py: documents embedded per batch. -/
def BATCH_SIZE : Nat := 64

/-- The ASCII whitespace characters stripped by Python `str.strip()`. -/
def pyIsSpace (c : Char) : Bool :=
  c = ' ' || c = '\t' || c = '\n' || c = '\r' || c = '\x0b' || c = '\x0c'

/-- Python `s.strip()`: remove leading and trailing whitespace. -/
def pyStrip (s : String) : String :=
  ⟨(((s.toList.dropWhile pyIsSpace).reverse).dropWhile pyIsSpace).reverse⟩

/-- Python `not content.strip()`: the content consists only of whitespace
characters. -/
def isBlank (s : String) : Bool :=
  s.toList.all pyIsSpace

/-- Python `s.split(sep)` for a one-character separator, as used for the
line-splitting `raw.split(chr 10)` of the keyword adapter. -/
def pySplitOnChar (sep : Char) : List Char → List Char → List String
  | [], acc => [⟨acc.reverse⟩]
  | c :: rest, acc =>
    if c = sep then ⟨acc.reverse⟩ :: pySplitOnChar sep rest []
    else pySplitOnChar sep rest (c :: acc)

/-- Python `s.split(chr 10)`: split on newline characters. -/
def pySplitLines (s : String) : List String :=
  pySplitOnChar '\n' s.toList []

/-- Decidability of the lexicographic order on strings routed through
`toList`, so that the kernel can evaluate comparisons on concrete strings. -/
def stringLeDec : DecidableRel ((· ≤ ·) : String → String → Prop) := fun a b =>
  decidable_of_iff (a.toList ≤ b.toList) String.le_iff_toList_le.symm

/-- `get_unprocessed_files` from rebuild_index.py:
`sorted(list(set(all_files) - set(id_map)))` — the candidate `.txt` files not
in the supplied id map, deduplicated and sorted lexicographically.  The sort
is modelled by insertion sort: on the duplicate-free output of a set
difference every correct sort for the total order on strings produces the
same list as Python's `sorted`. -/
def get_unprocessed_files (id_map : List String) (all_files : List String) :
    List String :=
  @List.insertionSort String (· ≤ ·) stringLeDec
    ((all_files.filter fun f => decide (f ∉ id_map)).dedup)

/-- `flush_batch` from rebuild_index.py (lines 200-230).  `encode` models
`model.encode` (`none` = the call raised); `writeIndexOk` / `writeMapOk`
model whether `faiss.write_index` / the id-map `open`+`json.dump` raised.
The whole body sits in one `try`/`except` that logs and continues, so a
raise at any point leaves exactly the mutations already performed: the
in-memory index and map are extended BEFORE the disk writes, and
`added_files_count` is only bumped after both writes succeed. -/
def flush_batch {V : Type} (encode : List String → Option (List V))
    (writeIndexOk writeMapOk : Bool)
    (st : CycleState V) (texts paths : List String) : CycleState V :=
  if texts.isEmpty then st
  else
    match encode texts with
    | none => st
    | some embeddings =>
      let start_id := st.idMap.length
      let new_ids := List.range' start_id paths.length
      let faissIndex' := st.faissIndex ++ new_ids.zip embeddings
      let idMap' := st.idMap ++ paths
      if writeIndexOk then
        if writeMapOk then
          { faissIndex := faissIndex', idMap := idMap',
            disk := { indexFile := some faissIndex', mapFile := some idMap' },
            addedFilesCount := st.addedFilesCount + paths.length }
        else
          { faissIndex := faissIndex', idMap := idMap',
            disk := { st.disk with indexFile := some faissIndex' },
            addedFilesCount := st.addedFilesCount }
      else
        { faissIndex := faissIndex', idMap := idMap', disk := st.disk,
          addedFilesCount := st.addedFilesCount }

/-- The per-file loop of `incremental_rebuild_faiss` (lines 232-255):
read each file (`readFile f = none` models the read raising, caught and
logged per file), skip blank content, accumulate a batch in lockstep,
flush full batches, and flush the residual batch at the end.  Disk writes
succeed on this path; write failures are analysed on `flush_batch` itself. -/
def process_files {V : Type} (encode : List String → Option (List V))
    (readFile : String → Option String) :
    List String → List String → List String → CycleState V → CycleState V
  | [], batch_texts, batch_paths, st =>
      flush_batch encode true true st batch_texts batch_paths
  | file_path :: rest, batch_texts, batch_paths, st =>
      match readFile file_path with
      | none => process_files encode readFile rest batch_texts batch_paths st
      | some content =>
        if isBlank content then
          process_files encode readFile rest batch_texts batch_paths st
        else
          let batch_texts' := batch_texts ++ [content]
          let batch_paths' := batch_paths ++ [file_path]
          if BATCH_SIZE ≤ batch_texts'.length then
            process_files encode readFile rest [] []
              (flush_batch encode true true st batch_texts' batch_paths')
          else
            process_files encode readFile rest batch_texts' batch_paths' st

/-- One FAISS indexing cycle of `incremental_rebuild_faiss` after the load
phase (lines 174-255): reconcile against the id map, apply the optional
`FAISS_MAX_FILES_PER_CYCLE` cap (`0` = disabled), return immediately when
nothing is unprocessed, otherwise run the batching loop.
`added_files_count` starts at `0` each cycle. -/
def incremental_rebuild_faiss {V : Type}
    (encode : List String → Option (List V))
    (readFile : String → Option String)
    (all_files : List String) (maxFilesPerCycle : Nat)
    (st : CycleState V) : CycleState V :=
  let st0 : CycleState V :=
    { faissIndex := st.faissIndex, idMap := st.idMap, disk := st.disk,
      addedFilesCount := 0 }
  let unprocessed0 := get_unprocessed_files st.idMap all_files
  let unprocessed :=
    if maxFilesPerCycle ≠ 0 ∧ maxFilesPerCycle < unprocessed0.length then
      unprocessed0.take maxFilesPerCycle
    else unprocessed0
  if unprocessed.length = 0 then st0
  else process_files encode readFile unprocessed [] [] st0

/-- Outcome of reading a file that exists: the read or parse can raise. -/
inductive ReadResult (α : Type) where
  | raise
  | ok (v : α)
deriving Repr, DecidableEq

/-- What `json.load` returned for the id-map file: a JSON list of strings,
or some non-list JSON value (the `isinstance(..., list)` check). -/
inductive MapJson where
  | notList
  | list (m : List String)
deriving Repr, DecidableEq

/-- The load phase of `incremental_rebuild_faiss` (lines 155-172): if both
artifact files exist, read the index then the map inside one `try`; a raise
in either read falls to the `except` branch which starts fresh; a map that
parses to a non-list resets ONLY the map; otherwise the loaded pair is used
as is (no size-invariant check is performed). -/
def load_index_and_map {V : Type} (indexFileExists mapFileExists : Bool)
    (readIndex : ReadResult (FaissIndex V)) (readMap : ReadResult MapJson) :
    FaissIndex V × List String :=
  if indexFileExists && mapFileExists then
    match readIndex with
    | .raise => ([], [])
    | .ok ix =>
      match readMap with
      | .raise => ([], [])
      | .ok .notList => (ix, [])
      | .ok (.list m) => (ix, m)
  else ([], [])

/-- The lockstep invariant between vector index and identifier map: the ids
stored in the index are exactly `0, 1, ..., len(idMap) - 1` in order. -/
def goodState {V : Type} (st : CycleState V) : Prop :=
  st.faissIndex.map Prod.fst = List.range st.idMap.length

/-- One search result record of hindsight_search.py: a
`{"source": "recoll", "content": ...}` dict or a
`{"source": "faiss (open-source)", "content": ..., "distance": ...}` dict.
Distances are kept abstract as integers; the adapter passes them through. -/
inductive SearchRec where
  | recoll (content : String)
  | faiss (content : String) (distance : Int)
deriving Repr, DecidableEq

/-- Outcome of invoking the `recoll` subprocess via `subprocess.check_output`:
the invocation itself can raise (e.g. `FileNotFoundError` when the executable
is absent), the process can exit non-zero (`CalledProcessError`), or it
produces stdout. -/
inductive RecollOutcome where
  | invokeRaise
  | calledProcessError
  | output (raw : String)
deriving Repr, DecidableEq

/-- `get_recoll_matches` from hindsight_search.py (lines 64-72).  The
`try` catches ONLY `subprocess.CalledProcessError` (non-zero exit → log and
return `[]`); any other exception — in particular `FileNotFoundError` when
the `recoll` executable is absent — propagates to the caller, modelled as
`Except.error`. -/
def get_recoll_matches (backend : String → RecollOutcome) (query : String) :
    Except Unit (List SearchRec) :=
  match backend query with
  | .invokeRaise => .error ()
  | .calledProcessError => .ok []
  | .output raw =>
      let stripped := pyStrip raw
      .ok (if stripped = "" then []
           else (pySplitLines stripped).map SearchRec.recoll)

/-- The loaded state and collaborators of the semantic search adapter
(module globals of hindsight_search.py): the loaded FAISS index is abstracted
by its `search` function — query vector and `k` to the list of
(ordinal, distance) rows of `indices[0]` / `distances[0]`, where ordinal `-1`
is the FAISS "no match" sentinel; `embedding_model` is `none` when
`SentenceTransformer` failed to load, and its inner `Option` models
`encode` raising; `readDoc` models `open(file_path).read()` (`none` = raised,
e.g. the file was deleted after indexing). -/
structure SearchCtx (V : Type) where
  faissIndex : Option (V → Nat → List (Int × Int))
  id_to_filepath_map : List String
  embedding_model : Option (String → Option V)
  readDoc : String → Option String

/-- Python list indexing `xs[i]` with an integer index: a negative index is
offset by `len(xs)` once; an index still out of range raises `IndexError`,
modelled as `none`. -/
def pyListGet {α : Type} (xs : List α) (i : Int) : Option α :=
  let j := if i < 0 then (xs.length : Int) + i else i
  if 0 ≤ j then xs.get? j.toNat else none

/-- The result loop of `get_faiss_matches` (lines 85-94): walk the
(ordinal, distance) rows, skip the `-1` sentinel, resolve each remaining
ordinal through the id map and read the backing file.  `none` models an
exception (an `IndexError` on the map or an unreadable file) escaping the
loop — there is no per-ordinal handler in the source. -/
def resolve_matches (id_map : List String) (readDoc : String → Option String) :
    List (Int × Int) → Option (List SearchRec)
  | [] => some []
  | (idx, dist) :: rest =>
    if idx = -1 then resolve_matches id_map readDoc rest
    else
      match pyListGet id_map idx with
      | none => none
      | some file_path =>
        match readDoc file_path with
        | none => none
        | some content =>
          match resolve_matches id_map readDoc rest with
          | none => none
          | some rs => some (SearchRec.faiss content dist :: rs)

/-- `get_faiss_matches` from hindsight_search.py (lines 74-97): return `[]`
when the index, the map, or the model is not loaded; otherwise embed the
query and resolve the search rows; the surrounding `try`/`except` turns ANY
exception — embedding failure, map `IndexError`, unreadable file — into an
empty result list. -/
def get_faiss_matches {V : Type} (ctx : SearchCtx V) (query : String)
    (num_results : Nat) : List SearchRec :=
  match ctx.faissIndex, ctx.embedding_model with
  | some searchFn, some em =>
    if ctx.id_to_filepath_map.isEmpty then []
    else
      match em query with
      | none => []
      | some query_vector =>
        match resolve_matches ctx.id_to_filepath_map ctx.readDoc
            (searchFn query_vector num_results) with
        | some results => results
        | none => []
  | _, _ => []

/-- `refine_query_with_gemini` from hindsight_search.py (lines 99-109):
`refiner_model = none` models the model not being initialized (return the
query unchanged); the inner `Option` models `generate_content` raising
(fall back to the original query); on success return `response.text.strip()`. -/
def refine_query_with_gemini (refiner_model : Option (String → Option String))
    (query : String) : String :=
  match refiner_model with
  | none => query
  | some generate =>
    match generate query with
    | none => query
    | some text => pyStrip text

/-- `hybrid_search` from hindsight_search.py (lines 111-115): refine the
query, fetch keyword matches on the REFINED query and semantic matches on
the ORIGINAL query (with the default `num_results=5`), and concatenate
keyword results first.  `get_recoll_matches` can raise (see above), and
`hybrid_search` has no handler of its own, so that exception propagates. -/
def hybrid_search {V : Type} (refiner_model : Option (String → Option String))
    (backend : String → RecollOutcome) (ctx : SearchCtx V) (query : String) :
    Except Unit (List SearchRec) :=
  let refined_query := refine_query_with_gemini refiner_model query
  match get_recoll_matches backend refined_query with
  | .error e => .error e
  | .ok recoll_results => .ok (recoll_results ++ get_faiss_matches ctx query 5)

/-! ### Helper lemmas -/

/-- Unfolding of a fully successful `flush_batch` on a nonempty batch. -/
theorem flush_batch_ok_eq {V : Type} (encode : List String → Option (List V))
    (st : CycleState V) (texts paths : List String) (embs : List V)
    (hne : texts ≠ []) (henc : encode texts = some embs) :
    flush_batch encode true true st texts paths =
      { faissIndex :=
          st.faissIndex ++ (List.range' st.idMap.length paths.length).zip embs,
        idMap := st.idMap ++ paths,
        disk :=
          { indexFile := some (st.faissIndex ++
              (List.range' st.idMap.length paths.length).zip embs),
            mapFile := some (st.idMap ++ paths) },
        addedFilesCount := st.addedFilesCount + paths.length } := by
  have hempty : texts.isEmpty = false := by
    simpa [List.isEmpty_iff] using hne
  simp [flush_batch, hempty, henc]

/-- A `flush_batch` with both writes succeeding either leaves the state
unchanged (empty batch or failed encode) or appends the batch. -/
theorem flush_batch_idMap_cases {V : Type}
    (encode : List String → Option (List V)) (wi wm : Bool)
    (st : CycleState V) (texts paths : List String) :
    (flush_batch encode wi wm st texts paths).idMap = st.idMap ∨
    (flush_batch encode wi wm st texts paths).idMap = st.idMap ++ paths := by
  unfold flush_batch
  cases htexts : texts.isEmpty
  · cases henc : encode texts
    · simp
    · cases wi <;> cases wm <;> simp
  · simp

/-- Membership characterization of reconciliation: exactly the candidates
absent from the id map. -/
theorem get_unprocessed_files_mem (id_map all_files : List String)
    (f : String) :
    f ∈ get_unprocessed_files id_map all_files ↔
      f ∈ all_files ∧ f ∉ id_map := by
  unfold get_unprocessed_files
  rw [List.mem_insertionSort, List.mem_dedup, List.mem_filter]
  simp

/-- Reconciliation output is sorted for the lexicographic order. -/
theorem get_unprocessed_files_sorted (id_map all_files : List String) :
    List.Pairwise (· ≤ ·) (get_unprocessed_files id_map all_files) :=
  @List.sorted_insertionSort String (· ≤ ·) stringLeDec _ _ _

/-- A cycle without a per-file cap, unfolded. -/
theorem incremental_rebuild_faiss_zero_cap {V : Type}
    (encode : List String → Option (List V))
    (readFile : String → Option String) (all_files : List String)
    (st : CycleState V) :
    incremental_rebuild_faiss encode readFile all_files 0 st =
      if (get_unprocessed_files st.idMap all_files).length = 0 then
        ⟨st.faissIndex, st.idMap, st.disk, 0⟩
      else
        process_files encode readFile
          (get_unprocessed_files st.idMap all_files) [] []
          ⟨st.faissIndex, st.idMap, st.disk, 0⟩ := by
  simp [incremental_rebuild_faiss]

/-- Everything in the identifier map after the batching loop was already in
the map, was in the pending batch, or is a listed file whose content read
successfully and was non-blank. -/
theorem process_files_idMap_mem {V : Type}
    (encode : List String → Option (List V))
    (readFile : String → Option String) :
    ∀ (files batch_texts batch_paths : List String) (st : CycleState V)
      (p : String),
      p ∈ (process_files encode readFile files batch_texts batch_paths
            st).idMap →
      p ∈ st.idMap ∨ p ∈ batch_paths ∨
        (p ∈ files ∧ ∃ c, readFile p = some c ∧ isBlank c = false) := by
  intro files
  induction files with
  | nil =>
    intro bt bp st p hp
    rw [process_files] at hp
    rcases flush_batch_idMap_cases encode true true st bt bp with h | h
    · rw [h] at hp
      exact Or.inl hp
    · rw [h] at hp
      rcases List.mem_append.mp hp with h1 | h2
      · exact Or.inl h1
      · exact Or.inr (Or.inl h2)
  | cons f rest ih =>
    intro bt bp st p hp
    cases hrf : readFile f with
    | none =>
      simp only [process_files, hrf] at hp
      rcases ih bt bp st p hp with h | h | ⟨h1, h2⟩
      · exact Or.inl h
      · exact Or.inr (Or.inl h)
      · exact Or.inr (Or.inr ⟨List.mem_cons_of_mem _ h1, h2⟩)
    | some c =>
      simp only [process_files, hrf] at hp
      by_cases hblank : isBlank c = true
      · rw [if_pos hblank] at hp
        rcases ih bt bp st p hp with h | h | ⟨h1, h2⟩
        · exact Or.inl h
        · exact Or.inr (Or.inl h)
        · exact Or.inr (Or.inr ⟨List.mem_cons_of_mem _ h1, h2⟩)
      · rw [if_neg hblank] at hp
        by_cases hfull : BATCH_SIZE ≤ (bt ++ [c]).length
        · rw [if_pos hfull] at hp
          rcases ih [] [] _ p hp with h | h | ⟨h1, h2⟩
          · rcases flush_batch_idMap_cases encode true true st (bt ++ [c])
              (bp ++ [f]) with he | he
            · rw [he] at h
              exact Or.inl h
            · rw [he] at h
              rcases List.mem_append.mp h with h3 | h4
              · exact Or.inl h3
              · rcases List.mem_append.mp h4 with h5 | h6
                · exact Or.inr (Or.inl h5)
                · have : p = f := by simpa using h6
                  subst this
                  exact Or.inr (Or.inr ⟨List.mem_cons_self _ _,
                    c, hrf, by simpa using hblank⟩)
          · exact absurd h (List.not_mem_nil _)
          · exact Or.inr (Or.inr ⟨List.mem_cons_of_mem _ h1, h2⟩)
        · rw [if_neg hfull] at hp
          rcases ih (bt ++ [c]) (bp ++ [f]) st p hp with h | h | ⟨h1, h2⟩
          · exact Or.inl h
          · rcases List.mem_append.mp h with h3 | h4
            · exact Or.inr (Or.inl h3)
            · have : p = f := by simpa using h4
              subst this
              exact Or.inr (Or.inr ⟨List.mem_cons_self _ _,
                c, hrf, by simpa using hblank⟩)
          · exact Or.inr (Or.inr ⟨List.mem_cons_of_mem _ h1, h2⟩)

/-- With an encoder that never fails and lockstep batch accumulators, every
path of the pending batch and every listed file that reads successfully with
non-blank content ends up in the identifier map after the loop; the initial
map is preserved as a subset. -/
theorem process_files_idMap_covers {V : Type}
    (encode : List String → Option (List V))
    (readFile : String → Option String)
    (hencOK : ∀ ts, ts ≠ [] → ∃ vs, encode ts = some vs) :
    ∀ (files batch_texts batch_paths : List String) (st : CycleState V)
      (p : String),
      batch_texts.length = batch_paths.length →
      (p ∈ st.idMap ∨ p ∈ batch_paths ∨
        (p ∈ files ∧ ∃ c, readFile p = some c ∧ isBlank c = false)) →
      p ∈ (process_files encode readFile files batch_texts batch_paths
            st).idMap := by
  intro files
  induction files with
  | nil =>
    intro bt bp st p hlock hmem
    rw [process_files]
    rcases hmem with h | h | ⟨h1, _⟩
    · by_cases hbt : bt = []
      · subst hbt
        have hbp : bp = [] := by
          simpa using hlock.symm
        subst hbp
        exact h
      · obtain ⟨vs, hvs⟩ := hencOK bt hbt
        rw [flush_batch_ok_eq encode st bt bp vs hbt hvs]
        exact List.mem_append_left _ h
    · have hbt : bt ≠ [] := by
        intro hbt
        subst hbt
        have hbp : bp = [] := by simpa using hlock.symm
        subst hbp
        exact (List.not_mem_nil p) h
      obtain ⟨vs, hvs⟩ := hencOK bt hbt
      rw [flush_batch_ok_eq encode st bt bp vs hbt hvs]
      exact List.mem_append_right _ h
    · exact absurd h1 (List.not_mem_nil _)
  | cons f rest ih =>
    intro bt bp st p hlock hmem
    cases hrf : readFile f with
    | none =>
      simp only [process_files, hrf]
      apply ih bt bp st p hlock
      rcases hmem with h | h | ⟨h1, h2⟩
      · exact Or.inl h
      · exact Or.inr (Or.inl h)
      · rcases List.mem_cons.mp h1 with rfl | h3
        · obtain ⟨c, hc, _⟩ := h2
          rw [hrf] at hc
          cases hc
        · exact Or.inr (Or.inr ⟨h3, h2⟩)
    | some content =>
      simp only [process_files, hrf]
      by_cases hblank : isBlank content = true
      · rw [if_pos hblank]
        apply ih bt bp st p hlock
        rcases hmem with h | h | ⟨h1, h2⟩
        · exact Or.inl h
        · exact Or.inr (Or.inl h)
        · rcases List.mem_cons.mp h1 with rfl | h3
          · obtain ⟨c, hc, hcb⟩ := h2
            rw [hrf] at hc
            cases hc
            rw [hblank] at hcb
            cases hcb
          · exact Or.inr (Or.inr ⟨h3, h2⟩)
      · rw [if_neg hblank]
        have hlock' : (bt ++ [content]).length = (bp ++ [f]).length := by
          simp [hlock]
        have hbt' : bt ++ [content] ≠ [] := by simp
        by_cases hfull : BATCH_SIZE ≤ (bt ++ [content]).length
        · rw [if_pos hfull]
          obtain ⟨vs, hvs⟩ := hencOK _ hbt'
          have hflush := flush_batch_ok_eq encode st (bt ++ [content])
            (bp ++ [f]) vs hbt' hvs
          apply ih [] [] _ p rfl
          rcases hmem with h | h | ⟨h1, h2⟩
          · refine Or.inl ?_
            rw [hflush]
            exact List.mem_append_left _ h
          · refine Or.inl ?_
            rw [hflush]
            exact List.mem_append_right _ (List.mem_append_left _ h)
          · rcases List.mem_cons.mp h1 with rfl | h3
            · refine Or.inl ?_
              rw [hflush]
              exact List.mem_append_right _
                (List.mem_append_right _ (List.mem_singleton.mpr rfl))
            · exact Or.inr (Or.inr ⟨h3, h2⟩)
        · rw [if_neg hfull]
          apply ih (bt ++ [content]) (bp ++ [f]) st p hlock'
          rcases hmem with h | h | ⟨h1, h2⟩
          · exact Or.inl h
          · exact Or.inr (Or.inl (List.mem_append_left _ h))
          · rcases List.mem_cons.mp h1 with rfl | h3
            · exact Or.inr (Or.inl
                (List.mem_append_right _ (List.mem_singleton.mpr rfl)))
            · exact Or.inr (Or.inr ⟨h3, h2⟩)

/-- When every listed file is unreadable or blank, the batching loop with an
empty pending batch changes nothing. -/
theorem process_files_skip_all {V : Type}
    (encode : List String → Option (List V))
    (readFile : String → Option String) :
    ∀ (files : List String) (st : CycleState V),
      (∀ f ∈ files, readFile f = none ∨
        ∃ c, readFile f = some c ∧ isBlank c = true) →
      process_files encode readFile files [] [] st = st := by
  intro files
  induction files with
  | nil =>
    intro st _
    rw [process_files]
    rfl
  | cons f rest ih =>
    intro st hall
    rcases hall f (List.mem_cons_self _ _) with hrf | ⟨c, hrf, hblank⟩
    · simp only [process_files, hrf]
      exact ih st fun g hg => hall g (List.mem_cons_of_mem _ hg)
    · simp only [process_files, hrf, if_pos hblank]
      exact ih st fun g hg => hall g (List.mem_cons_of_mem _ hg)

/-! ### Claims -/

/-- Embedding provider over `Int` vectors for concrete instantiations:
every text embeds to the constant vector 5. -/
def encConst : List String → Option (List Int) := fun ts =>
  some (ts.map fun _ => (5 : Int))

/-- The empty `CycleState` over `Int` vectors. -/
def emptyStateInt : CycleState Int := ⟨[], [], ⟨none, none⟩, 0⟩

/-- State left behind when the commit of `a.txt` succeeds in full and the
following commit of `b.txt` fails its map write: the persisted pair is
mismatched — the index file holds two vectors, the map file one key. -/
def stAfterFailedMapWrite : CycleState Int :=
  flush_batch encConst true false
    (flush_batch encConst true true emptyStateInt ["aaa"] ["a.txt"])
    ["bbb"] ["b.txt"]

/-- After a restart, the loader accepts that mismatched persisted pair
without a size check (see the C2 correction), and the next cycle commits
`c.txt` in a fully successful `flush_batch`. -/
def commitAfterRestart : CycleState Int :=
  flush_batch encConst true true
    ⟨(load_index_and_map true true (.ok [(0, 5), (1, 5)])
        (.ok (.list ["a.txt"]))).1,
     (load_index_and_map true true (.ok [(0, 5), (1, 5)])
        (.ok (.list ["a.txt"]))).2,
     ⟨some [(0, 5), (1, 5)], some ["a.txt"]⟩, 0⟩
    ["ccc"] ["c.txt"]

/-- Counterexample to C1: a map-write failure leaves a durably mismatched
pair on disk (index of size 2, map of size 1); after a restart the loader
accepts it unchecked, and the next completed commit starts at the shorter
map's length — the id sequence of the index becomes `[0, 1, 1]`: ordinal 1
is REUSED across a restart, the sequence is not strictly increasing, and the
identifier map's length does not equal the vector index's element count
after this completed commit. -/
theorem flush_batch_reuses_ordinals_after_restart :
    stAfterFailedMapWrite.disk.indexFile = some [(0, 5), (1, 5)] ∧
    stAfterFailedMapWrite.disk.mapFile = some ["a.txt"] ∧
    load_index_and_map true true (.ok [(0, 5), (1, 5)])
        (.ok (.list ["a.txt"])) = ([(0, 5), (1, 5)], ["a.txt"]) ∧
    commitAfterRestart.faissIndex.map Prod.fst = [0, 1, 1] ∧
    ¬ List.Pairwise (· < ·) (commitAfterRestart.faissIndex.map Prod.fst) ∧
    commitAfterRestart.idMap.length ≠ commitAfterRestart.faissIndex.length := by
  refine ⟨rfl, rfl, rfl, rfl, by decide, by decide⟩

/-- Claim C1 as amended: for every batch commit performed by `flush_batch`,
ordinals are assigned consecutively starting at the current length of the
identifier map (the committed rows carry ids `range' len(idMap) len(paths)`),
the vectors and document keys are appended in lockstep, and both artifacts
are persisted together, map write following index write; PROVIDED the
lockstep invariant held before the commit, it holds after — the identifier
map's length equals the vector index's element count, every previously
stored ordinal is below the first newly assigned one, and the full id
sequence is strictly increasing with no reuse.  Without that precondition
the guarantee fails: a restart from a mismatched persisted pair (reachable,
since a persistence failure leaves mismatched artifacts and the loader
performs no size check) makes the next commit reuse ordinals already present
in the index. -/
theorem flush_batch_commit_invariant {V : Type}
    (encode : List String → Option (List V)) (st : CycleState V)
    (texts paths : List String) (embs : List V)
    (hgood : goodState st)
    (hne : texts ≠ [])
    (hlen : paths.length = texts.length)
    (henc : encode texts = some embs)
    (hel : embs.length = texts.length) :
    (flush_batch encode true true st texts paths).idMap = st.idMap ++ paths ∧
    (flush_batch encode true true st texts paths).faissIndex
      = st.faissIndex ++ (List.range' st.idMap.length paths.length).zip embs ∧
    goodState (flush_batch encode true true st texts paths) ∧
    (flush_batch encode true true st texts paths).idMap.length
      = (flush_batch encode true true st texts paths).faissIndex.length ∧
    List.Pairwise (· < ·)
      ((flush_batch encode true true st texts paths).faissIndex.map Prod.fst) ∧
    (∀ q ∈ st.faissIndex, q.1 < st.idMap.length) ∧
    (flush_batch encode true true st texts paths).disk.indexFile
      = some (flush_batch encode true true st texts paths).faissIndex ∧
    (flush_batch encode true true st texts paths).disk.mapFile
      = some (flush_batch encode true true st texts paths).idMap := by
  have heq := flush_batch_ok_eq encode st texts paths embs hne henc
  have hzlen : (List.range' st.idMap.length paths.length).length ≤ embs.length := by
    simp [List.length_range', hlen, hel]
  have hmapfst :
      ((List.range' st.idMap.length paths.length).zip embs).map Prod.fst
        = List.range' st.idMap.length paths.length :=
    List.map_fst_zip _ _ hzlen
  have hfstall :
      (flush_batch encode true true st texts paths).faissIndex.map Prod.fst
        = List.range (st.idMap.length + paths.length) := by
    rw [heq]
    simp only [List.map_append, hmapfst]
    rw [hgood, List.range_eq_range', List.range_eq_range']
    have := List.range'_append 0 st.idMap.length paths.length 1
    simpa [Nat.add_comm] using this
  have hgood' : goodState (flush_batch encode true true st texts paths) := by
    unfold goodState
    rw [hfstall, heq]
    simp
  refine ⟨by rw [heq], by rw [heq], hgood', ?_, ?_, ?_, by rw [heq], by rw [heq]⟩
  · have h1 : (flush_batch encode true true st texts paths).faissIndex.length
        = ((flush_batch encode true true st texts paths).faissIndex.map
            Prod.fst).length := by simp
    rw [h1, hfstall, heq]
    simp
  · rw [hfstall]
    exact List.pairwise_lt_range _
  · intro q hq
    have : q.1 ∈ st.faissIndex.map Prod.fst := List.mem_map_of_mem Prod.fst hq
    rw [hgood] at this
    exact List.mem_range.mp this

/-- Embedding provider used for concrete instantiations on the rebuild side:
each text embeds to its length. -/
def encLen : List String → Option (List Nat) := fun ts =>
  some (ts.map String.length)

/-- The empty `CycleState`: fresh index, fresh map, nothing on disk. -/
def emptyState : CycleState Nat := ⟨[], [], ⟨none, none⟩, 0⟩

/-- Witness for C1: committing the batch `["hi"] / ["a.txt"]` to the empty
store yields map `["a.txt"]` in lockstep with one vector at ordinal 0. -/
theorem flush_batch_commit_invariant_witness :
    (flush_batch encLen true true emptyState ["hi"] ["a.txt"]).idMap = ["a.txt"] ∧
    goodState (flush_batch encLen true true emptyState ["hi"] ["a.txt"]) ∧
    (flush_batch encLen true true emptyState ["hi"] ["a.txt"]).idMap.length
      = (flush_batch encLen true true emptyState ["hi"] ["a.txt"]).faissIndex.length := by
  have h := flush_batch_commit_invariant encLen emptyState ["hi"] ["a.txt"] [2]
    rfl (by decide) rfl rfl rfl
  exact ⟨h.1, h.2.2.1, h.2.2.2.1⟩

/-- Counterexample to C2: both artifact files exist and load successfully,
the index holds two vectors but the map only one key — the size invariant is
violated — yet the load phase proceeds with the loaded, mismatched pair
instead of discarding both and starting from a fresh empty index and map. -/
theorem load_proceeds_despite_size_mismatch :
    load_index_and_map (V := Int) true true (.ok [(0, 7), (1, 8)])
        (.ok (.list ["a.txt"])) = ([(0, 7), (1, 8)], ["a.txt"]) ∧
    ([(0, 7), (1, 8)] : FaissIndex Int).length ≠ (["a.txt"] : List String).length ∧
    load_index_and_map (V := Int) true true (.ok [(0, 7), (1, 8)])
        (.ok (.list ["a.txt"])) ≠ (([], []) : FaissIndex Int × List String) := by
  refine ⟨rfl, by decide, by decide⟩

/-- Claim C2 as amended: on load, the indexer proceeds with the persisted
state whenever both artifact files exist and both reads succeed, with no
check of the size invariant; when the identifier-map file parses to a
non-list the loaded vector index is kept and combined with a freshly
initialized empty map; only a missing file or a read that raises causes
both artifacts to be discarded in favour of a fresh empty index and map. -/
theorem load_index_and_map_behavior {V : Type} (ix : FaissIndex V)
    (m : List String) :
    load_index_and_map true true (.ok ix) (.ok (.list m)) = (ix, m) ∧
    load_index_and_map true true (.ok ix) (.ok .notList) = (ix, []) ∧
    load_index_and_map true true (.ok ix) .raise = ([], []) ∧
    load_index_and_map (V := V) true true .raise (.ok (.list m)) = ([], []) ∧
    (∀ (mapExists : Bool) (rI : ReadResult (FaissIndex V))
        (rM : ReadResult MapJson),
      load_index_and_map false mapExists rI rM = ([], [])) ∧
    (∀ (indexExists : Bool) (rI : ReadResult (FaissIndex V))
        (rM : ReadResult MapJson),
      load_index_and_map indexExists false rI rM = ([], [])) := by
  refine ⟨rfl, rfl, rfl, rfl, ?_, ?_⟩
  · intro mapExists rI rM
    simp [load_index_and_map]
  · intro indexExists rI rM
    cases indexExists <;> simp [load_index_and_map]

/-- Counterexample to C3: starting from the empty store (the last successful
commit state), a batch whose index write raises leaves the in-memory map at
`["a.txt"]` and the in-memory index holding the vector at ordinal 0 — NOT
the state of the last successful commit — and the following batch is
assigned ordinal 1, not ordinal 0 as it would be had the failed batch never
happened. -/
theorem flush_batch_write_failure_advances_memory :
    (flush_batch encConst false true emptyStateInt ["hello"] ["a.txt"]).idMap
      = ["a.txt"] ∧
    emptyStateInt.idMap = [] ∧
    (flush_batch encConst false true emptyStateInt ["hello"] ["a.txt"]).faissIndex
      = [(0, 5)] ∧
    (flush_batch encConst true true
        (flush_batch encConst false true emptyStateInt ["hello"] ["a.txt"])
        ["world"] ["b.txt"]).faissIndex.map Prod.fst = [0, 1] := by
  refine ⟨rfl, rfl, rfl, rfl⟩

/-- Claim C3 as amended: if persisting a batch to stable storage fails, the
in-memory identifier map and vector index ARE advanced by the failed batch —
the source mutates them before the writes — while the artifacts not yet
written and `added_files_count` stay at the last successful commit; when the
index write raises the disk is untouched, and when the map write raises the
index file already holds the advanced index.  Subsequent batches therefore
assign ordinals as if the failed batch had been committed. -/
theorem flush_batch_write_failure_state {V : Type}
    (encode : List String → Option (List V)) (st : CycleState V)
    (texts paths : List String) (embs : List V)
    (hne : texts ≠ []) (henc : encode texts = some embs) :
    ((flush_batch encode false true st texts paths).idMap = st.idMap ++ paths ∧
     (flush_batch encode false true st texts paths).faissIndex
       = st.faissIndex ++ (List.range' st.idMap.length paths.length).zip embs ∧
     (flush_batch encode false true st texts paths).disk = st.disk ∧
     (flush_batch encode false true st texts paths).addedFilesCount
       = st.addedFilesCount) ∧
    ((flush_batch encode true false st texts paths).idMap = st.idMap ++ paths ∧
     (flush_batch encode true false st texts paths).faissIndex
       = st.faissIndex ++ (List.range' st.idMap.length paths.length).zip embs ∧
     (flush_batch encode true false st texts paths).disk.indexFile
       = some ((flush_batch encode true false st texts paths).faissIndex) ∧
     (flush_batch encode true false st texts paths).disk.mapFile
       = st.disk.mapFile ∧
     (flush_batch encode true false st texts paths).addedFilesCount
       = st.addedFilesCount) := by
  have hempty : texts.isEmpty = false := by
    simpa [List.isEmpty_iff] using hne
  constructor <;>
    refine ⟨?_, ?_, ?_, ?_⟩ <;> simp [flush_batch, hempty, henc]

/-- Witness for the amended C3: the concrete failed commit above matches the
amended description — memory advanced, disk and counter untouched. -/
theorem flush_batch_write_failure_state_witness :
    (flush_batch encConst false true emptyStateInt ["hello"] ["a.txt"]).idMap
      = ["a.txt"] ∧
    (flush_batch encConst false true emptyStateInt ["hello"] ["a.txt"]).disk
      = emptyStateInt.disk ∧
    (flush_batch encConst false true emptyStateInt ["hello"] ["a.txt"]).addedFilesCount
      = emptyStateInt.addedFilesCount := by
  have h := flush_batch_write_failure_state encConst emptyStateInt
    ["hello"] ["a.txt"] [5] (by decide) rfl
  exact ⟨h.1.1, h.1.2.2.1, h.1.2.2.2⟩

/-- If any non-sentinel ordinal among the search rows fails to resolve
(map lookup raises or the backing file read raises), the whole result loop
raises. -/
theorem resolve_matches_eq_none {id_map : List String}
    {readDoc : String → Option String} {rows : List (Int × Int)}
    {i d : Int} (hmem : (i, d) ∈ rows) (hne : i ≠ -1)
    (hfail : pyListGet id_map i = none ∨
      ∃ fp, pyListGet id_map i = some fp ∧ readDoc fp = none) :
    resolve_matches id_map readDoc rows = none := by
  induction rows with
  | nil => exact absurd hmem (List.not_mem_nil _)
  | cons hd tl ih =>
    obtain ⟨j, e⟩ := hd
    rcases List.mem_cons.mp hmem with heq | htl
    · obtain ⟨rfl, rfl⟩ := Prod.mk.injEq i d j e ▸ heq
      rcases hfail with h | ⟨fp, hfp, hrd⟩
      · simp [resolve_matches, hne, h]
      · simp [resolve_matches, hne, hfp, hrd]
    · have htail := ih htl
      by_cases hj : j = -1
      · simp [resolve_matches, hj, htail]
      · cases hg : pyListGet id_map j with
        | none => simp [resolve_matches, hj, hg]
        | some fp =>
          cases hr : readDoc fp with
          | none => simp [resolve_matches, hj, hg, hr]
          | some c => simp [resolve_matches, hj, hg, hr, htail]

/-- Python `xs[i]` raises `IndexError` for a non-negative index at or past
the end of the list. -/
theorem pyListGet_eq_none_of_oob {α : Type} (xs : List α) (i : Int)
    (h0 : 0 ≤ i) (hlen : (xs.length : Int) ≤ i) : pyListGet xs i = none := by
  unfold pyListGet
  have hnotneg : ¬ i < 0 := not_lt.mpr h0
  simp only [hnotneg, if_false, if_pos h0]
  apply List.get?_eq_none.mpr
  omega

/-- Search context where ordinal 0 resolves to a deleted file while
ordinal 1 resolves successfully. -/
def ctxOneBad : SearchCtx Int :=
  { faissIndex := some fun _ _ => [(0, 10), (1, 20)],
    id_to_filepath_map := ["a.txt", "b.txt"],
    embedding_model := some fun _ => some 0,
    readDoc := fun fp => if fp = "b.txt" then some "bee" else none }

/-- Counterexample to C4: the loaded index returns ordinals 0 and 1;
resolving ordinal 0 fails (its backing file is unreadable) while ordinal 1
resolves to content "bee" — yet the adapter returns the empty list,
discarding the whole batch instead of returning the result for ordinal 1. -/
theorem get_faiss_matches_drops_whole_batch :
    get_faiss_matches ctxOneBad "q" 5 = [] ∧
    ctxOneBad.readDoc "a.txt" = none ∧
    ctxOneBad.readDoc "b.txt" = some "bee" ∧
    SearchRec.faiss "bee" 20 ∉ get_faiss_matches ctxOneBad "q" 5 := by
  refine ⟨rfl, rfl, rfl, by decide⟩

/-- Claim C4 as amended: when resolving a returned non-sentinel ordinal to
document content fails for an individual ordinal (e.g. the backing file was
deleted after indexing), the semantic search adapter's single whole-search
exception handler catches it and returns the empty list — the entire batch of
results is discarded, including every other successfully resolvable
ordinal. -/
theorem get_faiss_matches_individual_failure_drops_all {V : Type}
    (ctx : SearchCtx V) (query : String) (k : Nat)
    (fi : V → Nat → List (Int × Int)) (em : String → Option V) (qv : V)
    (i d : Int)
    (hfi : ctx.faissIndex = some fi) (hem : ctx.embedding_model = some em)
    (hq : em query = some qv)
    (hmem : (i, d) ∈ fi qv k) (hne : i ≠ -1)
    (hfail : pyListGet ctx.id_to_filepath_map i = none ∨
      ∃ fp, pyListGet ctx.id_to_filepath_map i = some fp ∧
        ctx.readDoc fp = none) :
    get_faiss_matches ctx query k = [] := by
  have hnone := resolve_matches_eq_none hmem hne hfail
  simp only [get_faiss_matches, hfi, hem, hq, hnone]
  split <;> rfl

/-- Witness for the amended C4: on the concrete context above, ordinal 0's
resolution failure empties the whole result list. -/
theorem get_faiss_matches_individual_failure_drops_all_witness :
    get_faiss_matches ctxOneBad "q" 5 = [] := by
  exact get_faiss_matches_individual_failure_drops_all ctxOneBad "q" 5
    (fun _ _ => [(0, 10), (1, 20)]) (fun _ => some 0) 0 0 10
    rfl rfl rfl (by decide) (by decide)
    (Or.inr ⟨"a.txt", rfl, rfl⟩)

/-- Claim C10: the semantic search adapter never propagates an exception to
its caller; whenever the index, map or model is unavailable, the query
embedding raises, or any returned ordinal lies outside the bounds of the
loaded identifier map (a map shorter than the vector index), it returns the
empty list, dropping the entire result set for that query. -/
theorem get_faiss_matches_never_raises {V : Type}
    (ctx : SearchCtx V) (query : String) (k : Nat) :
    (ctx.faissIndex = none → get_faiss_matches ctx query k = []) ∧
    (ctx.embedding_model = none → get_faiss_matches ctx query k = []) ∧
    (ctx.id_to_filepath_map = [] → get_faiss_matches ctx query k = []) ∧
    (∀ (fi : V → Nat → List (Int × Int)) (em : String → Option V),
      ctx.faissIndex = some fi → ctx.embedding_model = some em →
      em query = none → get_faiss_matches ctx query k = []) ∧
    (∀ (fi : V → Nat → List (Int × Int)) (em : String → Option V) (qv : V)
        (i d : Int),
      ctx.faissIndex = some fi → ctx.embedding_model = some em →
      em query = some qv → (i, d) ∈ fi qv k →
      0 ≤ i → (ctx.id_to_filepath_map.length : Int) ≤ i →
      get_faiss_matches ctx query k = []) := by
  refine ⟨?_, ?_, ?_, ?_, ?_⟩
  · intro h
    simp [get_faiss_matches, h]
  · intro h
    unfold get_faiss_matches
    rw [h]
    rcases ctx.faissIndex with _ | fi <;> rfl
  · intro h
    unfold get_faiss_matches
    rcases ctx.faissIndex with _ | fi <;> rcases ctx.embedding_model with _ | em <;>
      simp [h]
  · intro fi em hfi hem hq
    simp [get_faiss_matches, hfi, hem, hq]
  · intro fi em qv i d hfi hem hq hmem h0 hlen
    have hne : i ≠ -1 := by omega
    have hget := pyListGet_eq_none_of_oob ctx.id_to_filepath_map i h0 hlen
    have hnone := @resolve_matches_eq_none ctx.id_to_filepath_map ctx.readDoc
      (fi qv k) i d hmem hne (Or.inl hget)
    simp only [get_faiss_matches, hfi, hem, hq, hnone]
    split <;> rfl

/-- Search context whose identifier map (one entry) is shorter than the
vector index, which returns ordinal 1. -/
def ctxShortMap : SearchCtx Int :=
  { faissIndex := some fun _ _ => [(1, 20)],
    id_to_filepath_map := ["a.txt"],
    embedding_model := some fun _ => some 0,
    readDoc := fun _ => some "text" }

/-- Witness for C10: with a map shorter than the vector index, the returned
out-of-bounds ordinal makes the adapter return the empty list. -/
theorem get_faiss_matches_never_raises_witness :
    get_faiss_matches ctxShortMap "q" 5 = [] := by
  exact (get_faiss_matches_never_raises ctxShortMap "q" 5).2.2.2.2
    (fun _ _ => [(1, 20)]) (fun _ => some 0) 0 1 20
    rfl rfl rfl (by decide) (by decide) (by decide)

/-- Search context with working semantic search over one indexed document. -/
def ctxGood : SearchCtx Int :=
  { faissIndex := some fun _ _ => [(0, 3)],
    id_to_filepath_map := ["a.txt"],
    embedding_model := some fun _ => some 0,
    readDoc := fun _ => some "hello world" }

/-- Counterexample to C5: when invoking the keyword backend itself fails —
the `recoll` executable being absent raises `FileNotFoundError`, which is
not `CalledProcessError` and so is not caught — the keyword adapter does NOT
return an empty result list: the exception escapes and aborts the hybrid
query engine, which returns no results at all despite a loaded semantic
index with matching content. -/
theorem recoll_invoke_failure_escapes :
    get_recoll_matches (fun _ => RecollOutcome.invokeRaise) "q" = .error () ∧
    hybrid_search none (fun _ => RecollOutcome.invokeRaise) ctxGood "q"
      = .error () ∧
    get_faiss_matches ctxGood "q" 5 = [SearchRec.faiss "hello world" 3] := by
  exact ⟨rfl, rfl, rfl⟩

/-- Claim C5 as amended: a non-zero exit of the keyword backend is caught
(`subprocess.CalledProcessError`), yielding an empty keyword result list
with a logged error, and hybrid search then still returns exactly the
semantic results; but an invocation failure — the backend executable being
absent raises `FileNotFoundError` — is NOT caught: the exception escapes the
keyword adapter and aborts the hybrid query engine. -/
theorem hybrid_search_keyword_degradation {V : Type}
    (refiner_model : Option (String → Option String))
    (backend : String → RecollOutcome) (ctx : SearchCtx V) (query : String) :
    (backend (refine_query_with_gemini refiner_model query)
        = RecollOutcome.calledProcessError →
      get_recoll_matches backend (refine_query_with_gemini refiner_model query)
          = .ok [] ∧
      hybrid_search refiner_model backend ctx query
          = .ok (get_faiss_matches ctx query 5)) ∧
    (backend (refine_query_with_gemini refiner_model query)
        = RecollOutcome.invokeRaise →
      hybrid_search refiner_model backend ctx query = .error ()) := by
  constructor
  · intro h
    refine ⟨by simp [get_recoll_matches, h], ?_⟩
    simp [hybrid_search, get_recoll_matches, h]
  · intro h
    simp [hybrid_search, get_recoll_matches, h]

/-- Witness for the amended C5: with a backend exiting non-zero, hybrid
search returns exactly the semantic results; with the executable absent, the
exception escapes. -/
theorem hybrid_search_keyword_degradation_witness :
    hybrid_search none (fun _ => RecollOutcome.calledProcessError) ctxGood "q"
      = .ok [SearchRec.faiss "hello world" 3] ∧
    hybrid_search none (fun _ => RecollOutcome.invokeRaise) ctxGood "q"
      = .error () := by
  constructor
  · exact ((hybrid_search_keyword_degradation none
      (fun _ => RecollOutcome.calledProcessError) ctxGood "q").1 rfl).2
  · exact (hybrid_search_keyword_degradation none
      (fun _ => RecollOutcome.invokeRaise) ctxGood "q").2 rfl

/-- Claim C7: the hybrid query engine returns the keyword results — obtained
on the refined query — concatenated before the semantic results — obtained on
the original, un-refined query — with each adapter's own list passed through
unchanged: the keyword list is the prefix, the semantic list the suffix, no
cross-source re-ranking, and no deduplication (the lengths add). -/
theorem hybrid_search_concat {V : Type}
    (refiner_model : Option (String → Option String))
    (backend : String → RecollOutcome) (ctx : SearchCtx V) (query : String)
    (keyword_results : List SearchRec)
    (hok : get_recoll_matches backend
        (refine_query_with_gemini refiner_model query) = .ok keyword_results) :
    hybrid_search refiner_model backend ctx query
      = .ok (keyword_results ++ get_faiss_matches ctx query 5) ∧
    (keyword_results ++ get_faiss_matches ctx query 5).take
        keyword_results.length = keyword_results ∧
    (keyword_results ++ get_faiss_matches ctx query 5).drop
        keyword_results.length = get_faiss_matches ctx query 5 ∧
    (keyword_results ++ get_faiss_matches ctx query 5).length
      = keyword_results.length + (get_faiss_matches ctx query 5).length := by
  refine ⟨?_, List.take_left _ _, List.drop_left _ _, List.length_append _ _⟩
  simp [hybrid_search, hok]

/-- Refiner used in the C7 witness: appends a marker to the query. -/
def refinerEcho : Option (String → Option String) :=
  some fun s => some (s ++ " refined")

/-- Keyword backend used in the C7 witness: echoes its query as the single
result line, making visible which query string reached it. -/
def backendEcho : String → RecollOutcome := fun s => RecollOutcome.output s

/-- Witness for C7: the keyword adapter received the REFINED query
("q refined") while the semantic adapter ran on the original "q"; the
combined list is keyword-first. -/
theorem hybrid_search_concat_witness :
    hybrid_search refinerEcho backendEcho ctxGood "q"
      = .ok [SearchRec.recoll "q refined", SearchRec.faiss "hello world" 3] := by
  have h := hybrid_search_concat refinerEcho backendEcho ctxGood "q"
    [SearchRec.recoll "q refined"] rfl
  exact h.1

/-- Document source of the concrete scenario: `a.txt` ("hello world"),
`b.txt` ("   "), `c.txt` ("hello there"); any other path is unreadable. -/
def sampleRead : String → Option String := fun f =>
  if f = "a.txt" then some "hello world"
  else if f = "b.txt" then some "   "
  else if f = "c.txt" then some "hello there"
  else none

/-- Claim C6: for every identifier map and candidate set, reconciliation
returns exactly the candidate keys absent from the map, sorted
lexicographically; and when that list is empty (empty source or fully
reconciled state) the indexer exits the cycle immediately, returning the
loaded state unchanged with a zero added-files count — a normal "no new
documents" outcome, not an error. -/
theorem reconciliation_spec {V : Type}
    (encode : List String → Option (List V))
    (readFile : String → Option String)
    (all_files : List String) (cap : Nat) (st : CycleState V) :
    (∀ f, f ∈ get_unprocessed_files st.idMap all_files ↔
      f ∈ all_files ∧ f ∉ st.idMap) ∧
    List.Pairwise (· ≤ ·) (get_unprocessed_files st.idMap all_files) ∧
    (get_unprocessed_files st.idMap all_files = [] →
      incremental_rebuild_faiss encode readFile all_files cap st =
        ⟨st.faissIndex, st.idMap, st.disk, 0⟩) := by
  refine ⟨fun f => get_unprocessed_files_mem _ _ f,
    get_unprocessed_files_sorted _ _, ?_⟩
  intro hempty
  simp [incremental_rebuild_faiss, hempty]

/-- A fully reconciled state over the single-document source `["a.txt"]`. -/
def reconciledState : CycleState Nat := ⟨[(0, 11)], ["a.txt"], ⟨none, none⟩, 0⟩

/-- Witness for C6: with `a.txt` already indexed, a cycle over the source
`["a.txt"]` exits immediately with zero additions. -/
theorem reconciliation_spec_witness :
    incremental_rebuild_faiss encLen sampleRead ["a.txt"] 0 reconciledState =
      ⟨reconciledState.faissIndex, reconciledState.idMap,
        reconciledState.disk, 0⟩ := by
  exact (reconciliation_spec encLen sampleRead ["a.txt"] 0
    reconciledState).2.2 (by decide)

/-- Claim C8: a document whose content is empty or all-whitespace is never
indexed: in any cycle it is not embedded, gets no ordinal and is not added to
the identifier map — and since it stays out of the map there is no distinct
retry state, it is simply skipped afresh each cycle.  Concretely, one cycle
from the empty store over `a.txt` ("hello world"), `b.txt` ("   "),
`c.txt` ("hello there") commits exactly the two entries `a.txt` and
`c.txt`. -/
theorem blank_documents_never_indexed {V : Type}
    (encode : List String → Option (List V))
    (readFile : String → Option String)
    (all_files : List String) (cap : Nat) (st : CycleState V) :
    (∀ b c, readFile b = some c → isBlank c = true → b ∉ st.idMap →
      b ∉ (incremental_rebuild_faiss encode readFile all_files cap st).idMap) ∧
    (incremental_rebuild_faiss encLen sampleRead ["a.txt", "b.txt", "c.txt"] 0
        emptyState).idMap = ["a.txt", "c.txt"] ∧
    (incremental_rebuild_faiss encLen sampleRead ["a.txt", "b.txt", "c.txt"] 0
        emptyState).addedFilesCount = 2 ∧
    "b.txt" ∉ (incremental_rebuild_faiss encLen sampleRead
        ["a.txt", "b.txt", "c.txt"] 0 emptyState).idMap := by
  refine ⟨?_, by decide, by decide, by decide⟩
  intro b c hrb hblank hnotin hin
  simp only [incremental_rebuild_faiss] at hin
  split at hin <;> split at hin
  · exact hnotin hin
  · rcases process_files_idMap_mem encode readFile _ [] [] _ b hin with
      h | h | ⟨_, c', hc', hcb⟩
    · exact hnotin h
    · exact (List.not_mem_nil b) h
    · rw [hrb] at hc'
      cases hc'
      rw [hblank] at hcb
      cases hcb
  · exact hnotin hin
  · rcases process_files_idMap_mem encode readFile _ [] [] _ b hin with
      h | h | ⟨_, c', hc', hcb⟩
    · exact hnotin h
    · exact (List.not_mem_nil b) h
    · rw [hrb] at hc'
      cases hc'
      rw [hblank] at hcb
      cases hcb

/-- Witness for C8: `b.txt`, whose content is all-whitespace, is absent from
the identifier map after a capped cycle from the empty store. -/
theorem blank_documents_never_indexed_witness :
    "b.txt" ∉ (incremental_rebuild_faiss encLen sampleRead
        ["a.txt", "b.txt", "c.txt"] 7 emptyState).idMap := by
  exact (blank_documents_never_indexed encLen sampleRead
      ["a.txt", "b.txt", "c.txt"] 7 emptyState).1 "b.txt" "   " rfl rfl
    (by decide)

/-- Claim C9: running the cycle twice in a row over an unchanged document
source adds zero entries on the second run — every document committed by the
first run is in the identifier map and no longer unseen, and documents
skipped as blank (or unreadable) are skipped again without producing
entries — so the second run leaves the map and index unchanged and reports a
zero added-files count.  Stated for an encoder that does not fail (so the
first run's batches all commit) and no per-cycle cap. -/
theorem second_cycle_is_noop {V : Type}
    (encode : List String → Option (List V))
    (readFile : String → Option String)
    (all_files : List String) (st : CycleState V)
    (hencOK : ∀ ts, ts ≠ [] → ∃ vs, encode ts = some vs) :
    (incremental_rebuild_faiss encode readFile all_files 0
        (incremental_rebuild_faiss encode readFile all_files 0 st)).idMap
      = (incremental_rebuild_faiss encode readFile all_files 0 st).idMap ∧
    (incremental_rebuild_faiss encode readFile all_files 0
        (incremental_rebuild_faiss encode readFile all_files 0 st)).faissIndex
      = (incremental_rebuild_faiss encode readFile all_files 0 st).faissIndex ∧
    (incremental_rebuild_faiss encode readFile all_files 0
        (incremental_rebuild_faiss encode readFile all_files 0
          st)).addedFilesCount = 0 := by
  set r1 := incremental_rebuild_faiss encode readFile all_files 0 st with hr1
  have hcov : ∀ f ∈ all_files, f ∈ r1.idMap ∨ readFile f = none ∨
      ∃ c, readFile f = some c ∧ isBlank c = true := by
    intro f hf
    by_cases hin : f ∈ st.idMap
    · left
      rw [hr1, incremental_rebuild_faiss_zero_cap]
      split
      · exact hin
      · exact process_files_idMap_covers encode readFile hencOK _ [] [] _ f
          rfl (Or.inl hin)
    · have hu : f ∈ get_unprocessed_files st.idMap all_files :=
        (get_unprocessed_files_mem _ _ f).mpr ⟨hf, hin⟩
      cases hrf : readFile f with
      | none => exact Or.inr (Or.inl rfl)
      | some c =>
        by_cases hblank : isBlank c = true
        · exact Or.inr (Or.inr ⟨c, rfl, hblank⟩)
        · left
          rw [hr1, incremental_rebuild_faiss_zero_cap]
          split
          · rename_i hlen
            rw [List.length_eq_zero.mp hlen] at hu
            exact absurd hu (List.not_mem_nil f)
          · exact process_files_idMap_covers encode readFile hencOK _ [] [] _
              f rfl (Or.inr (Or.inr ⟨hu, c, hrf, by simpa using hblank⟩))
  have hunseen2 : ∀ f ∈ get_unprocessed_files r1.idMap all_files,
      readFile f = none ∨ ∃ c, readFile f = some c ∧ isBlank c = true := by
    intro f hf
    obtain ⟨hfa, hfnot⟩ := (get_unprocessed_files_mem _ _ f).mp hf
    rcases hcov f hfa with h | h
    · exact absurd h hfnot
    · exact h
  by_cases hlen : (get_unprocessed_files r1.idMap all_files).length = 0
  · rw [incremental_rebuild_faiss_zero_cap encode readFile all_files r1,
      if_pos hlen]
    exact ⟨rfl, rfl, rfl⟩
  · rw [incremental_rebuild_faiss_zero_cap encode readFile all_files r1,
      if_neg hlen, process_files_skip_all encode readFile _ _ hunseen2]
    exact ⟨rfl, rfl, rfl⟩

/-- Witness for C9: on the three-document source, the second cycle changes
nothing and reports zero additions. -/
theorem second_cycle_is_noop_witness :
    (incremental_rebuild_faiss encLen sampleRead ["a.txt", "b.txt", "c.txt"] 0
        (incremental_rebuild_faiss encLen sampleRead
          ["a.txt", "b.txt", "c.txt"] 0 emptyState)).idMap
      = (incremental_rebuild_faiss encLen sampleRead
          ["a.txt", "b.txt", "c.txt"] 0 emptyState).idMap ∧
    (incremental_rebuild_faiss encLen sampleRead ["a.txt", "b.txt", "c.txt"] 0
        (incremental_rebuild_faiss encLen sampleRead
          ["a.txt", "b.txt", "c.txt"] 0 emptyState)).addedFilesCount = 0 := by
  have h := second_cycle_is_noop encLen sampleRead ["a.txt", "b.txt", "c.txt"]
    emptyState (fun ts _ => ⟨ts.map String.length, rfl⟩)
  exact ⟨h.1, h.2.2⟩

end Hindsight
